import Mathlib

/-!
Verification of the free-time-slot search of AgenDo.

This file gives a shallow embedding of `find_free_time`
(`src/agent/tools/sdk/googlecalendar.py`, lines 1062-1253) and proves or
refutes the specified properties of the availability scanner.

Modelling conventions:

* Instants are integers counting seconds of local time in the user's
  (single, fixed-offset) timezone; the code normalizes every instant to the
  user timezone with `astimezone` before any comparison, so a single time
  line is faithful (DST transitions are outside every claim considered).
* A calendar day is the block of `86400` seconds `[d*86400, (d+1)*86400)`;
  `datetime.date()` of an instant is its floor-division by `86400`.
* `weekday()` (Monday = 0 .. Sunday = 6) is the day number modulo 7; the
  epoch day 0 is taken to be a Monday, which loses no generality since day
  numbers range over all of `Int`.
* Durations are handed to the scanner in minutes; the code compares
  `gap.total_seconds() / 60 >= duration_minutes`, which over exact
  arithmetic on whole seconds is `gap_seconds >= 60 * duration_minutes`.
* Python's `list.sort` is a stable sort; on a list of events of a single
  day that all carry the same UTC offset, sorting by the ISO `dateTime`
  string is sorting by the start instant.  A stable sort by a fixed key is
  extensionally determined, so the embedding uses the structural (hence
  kernel-computable) stable `List.insertionSort`.
* `int(x)` on a nonnegative quotient of whole seconds by 60 is truncated
  division, `Int.tdiv`.
-/

namespace AgenDo

/-- A busy interval already parsed to instants: `{'start': {'dateTime': s},
'end': {'dateTime': e}}` with both instants resolved to local seconds. -/
structure BusyInterval where
  startT : Int
  endT : Int
  deriving Repr, DecidableEq

/-- One entry of the `free_slots` list built by `find_free_time`: the
`start_time`, `end_time` and `duration_minutes` fields (the derived `date`
and `time` display strings are functions of the first two). -/
structure FreeSlot where
  startT : Int
  endT : Int
  durationMin : Int
  deriving Repr, DecidableEq

/-- The search configuration: the parameters `duration_minutes`,
`search_days`, `work_hours_start`, `work_hours_end`, `exclude_weekends` of
`find_free_time`. -/
structure SearchConfig where
  durationMinutes : Int
  searchDays : Nat
  workStartHour : Int
  workEndHour : Int
  excludeWeekends : Bool
  deriving Repr, DecidableEq

def secPerDay : Int := 86400

def secPerHour : Int := 3600

/-- The local calendar day an instant falls on (`datetime.date()`). -/
def dayOf (t : Int) : Int := Int.fdiv t secPerDay

/-- `date.weekday()`, Monday = 0 .. Sunday = 6, with day 0 a Monday. -/
def weekdayOf (d : Int) : Int := Int.emod d 7

/-- `day_start = localize(day, work_hours_start:00)`. -/
def dayStartOf (cfg : SearchConfig) (d : Int) : Int :=
  d * secPerDay + cfg.workStartHour * secPerHour

/-- `day_end = localize(day, work_hours_end:00)`. -/
def dayEndOf (cfg : SearchConfig) (d : Int) : Int :=
  d * secPerDay + cfg.workEndHour * secPerHour

/-- The clamp `if day_start < start_date: day_start = start_date` applied to
the working-window lower bound (`start_date` is `now`). -/
def clampedStart (cfg : SearchConfig) (now d : Int) : Int :=
  if dayStartOf cfg d < now then now else dayStartOf cfg d

/-- The weekend filter `exclude_weekends and current_date.weekday() >= 5`. -/
def skipDay (cfg : SearchConfig) (d : Int) : Bool :=
  cfg.excludeWeekends && decide (5 ≤ weekdayOf d)

/-- The slot record appended by the code: `slot_end = min(bound, current +
timedelta(minutes=duration))` where `bound` is the event start (gap before a
busy interval) or `day_end` (trailing gap), and `duration_minutes =
int((slot_end - current).total_seconds() / 60)`. -/
def mkSlot (cur bound dur : Int) : FreeSlot :=
  { startT := cur
    endT := min bound (cur + 60 * dur)
    durationMin := Int.tdiv (min bound (cur + 60 * dur) - cur) 60 }

/-- The cursor walk over one day's sorted busy intervals: for each event,
emit a slot when `event_start > current_time` and the gap is at least the
requested duration, then advance `current_time = max(current_time,
event_end)`.  Returns the final cursor and the emitted slots in order. -/
def scanBusy (dur : Int) : Int → List BusyInterval → Int × List FreeSlot
  | cur, [] => (cur, [])
  | cur, b :: rest =>
    let emitted : List FreeSlot :=
      if cur < b.startT ∧ 60 * dur ≤ b.startT - cur then [mkSlot cur b.startT dur] else []
    let next := scanBusy dur (max cur b.endT) rest
    (next.1, emitted ++ next.2)

/-- The trailing check after the last event: `if current_time < day_end`
and the remaining gap is long enough, emit one truncated slot. -/
def trailingSlot (dur cur dayEnd : Int) : List FreeSlot :=
  if cur < dayEnd ∧ 60 * dur ≤ dayEnd - cur then [mkSlot cur dayEnd dur] else []

/-- One day's scan over an already sorted busy list: the gap slots of the
cursor walk followed by the trailing slot, in emission order. -/
def scanDayCore (dur cur dayEnd : Int) (l : List BusyInterval) : List FreeSlot :=
  (scanBusy dur cur l).2 ++ trailingSlot dur (scanBusy dur cur l).1 dayEnd

/-- `day_events.sort(key=...)`: the stable sort of the day's events by
start instant (see the module comment for why insertion sort embeds
Python's stable `list.sort`). -/
def sortByStart (l : List BusyInterval) : List BusyInterval :=
  List.insertionSort (fun a b => a.startT ≤ b.startT) l

/-- The day-attribution filter: an event belongs to the day its (localized)
start instant falls on. -/
def dayBusy (busy : List BusyInterval) (d : Int) : List BusyInterval :=
  busy.filter (fun b => dayOf b.startT == d)

/-- The body of the per-day loop of `find_free_time`: skip weekends when
configured, clamp `day_start` to `now`, select and sort the day's events,
walk the cursor, and check the trailing gap. -/
def daySlots (cfg : SearchConfig) (now : Int) (busy : List BusyInterval) (d : Int) :
    List FreeSlot :=
  if skipDay cfg d then []
  else
    scanDayCore cfg.durationMinutes (clampedStart cfg now d) (dayEndOf cfg d)
      (sortByStart (dayBusy busy d))

/-- The days scanned by the `while current_date <= end_date.date()` loop:
`now.date()` through `now.date() + search_days`, inclusive. -/
def scanRange (cfg : SearchConfig) (now : Int) : List Int :=
  (List.range (cfg.searchDays + 1)).map (fun i : Nat => dayOf now + (i : Int))

/-- The pure scanner: concatenate the per-day slots in day order and
truncate to the first 10 entries (`free_slots = free_slots[:10]`). -/
def findFreeSlots (cfg : SearchConfig) (now : Int) (busy : List BusyInterval) :
    List FreeSlot :=
  (((scanRange cfg now).map (daySlots cfg now busy)).flatten).take 10

/-- A raw event as fetched from the API: each instant either parses
(`some t`) or is malformed so that `datetime.fromisoformat` raises
(`none`).  All-day events (no `dateTime` key) are excluded before this
point and contribute nothing, exactly as in the code. -/
structure RawInterval where
  startT : Option Int
  endT : Option Int
  deriving Repr, DecidableEq

/-- The events whose two instants both parse. -/
def parseBusy (raw : List RawInterval) : List BusyInterval :=
  raw.filterMap fun e =>
    match e.startT, e.endT with
    | some s, some t => some { startT := s, endT := t }
    | _, _ => none

/-- The scanned days that survive the weekend filter (the days whose loop
iteration reaches the event-selection and gap-walk code). -/
def activeDays (cfg : SearchConfig) (now : Int) : List Int :=
  (scanRange cfg now).filter (fun d => !(skipDay cfg d))

/-- Whether an unparseable instant is reached during the scan, raising an
exception.  The selection loop of the first active day parses the start of
every fetched event, so any malformed start aborts as soon as one scanned
day survives the weekend filter; a malformed end is parsed (and aborts)
iff its event is attributed to some active day.  Since the returned value
depends only on whether some parse raises (the handler catches every
exception), this predicate is extensionally faithful to the control flow. -/
def rawAborts (cfg : SearchConfig) (now : Int) (raw : List RawInterval) : Bool :=
  (!(activeDays cfg now).isEmpty && raw.any (fun e => e.startT.isNone))
    || raw.any (fun e =>
        match e.startT with
        | some s => (activeDays cfg now).contains (dayOf s) && e.endT.isNone
        | none => false)

/-- The shape of the JSON payload `find_free_time` returns: either an
object with an `error` key (the catch-all exception handler) or the
`free_slots` list. -/
inductive ScanResult where
  | error : ScanResult
  | ok : List FreeSlot → ScanResult
  deriving Repr, DecidableEq

/-- `find_free_time` at the result level: a raised parse error is caught by
the enclosing handler, which returns an error payload and discards every
slot computed so far (`ScanResult.error`); otherwise the scan result over
the parsed events is returned.  Events dropped by `parseBusy` in the
`ok` branch have a malformed end on a non-active start day, and such
events are never consulted by `findFreeSlots` either. -/
def findFreeTime (cfg : SearchConfig) (now : Int) (raw : List RawInterval) :
    ScanResult :=
  if rawAborts cfg now raw then ScanResult.error
  else ScanResult.ok (findFreeSlots cfg now (parseBusy raw))

/-- Helper for `mergeIntervals`: merge the pending interval `a` into the
remaining list, coalescing while the next start does not exceed the
pending end. -/
def mergeFrom (a : BusyInterval) : List BusyInterval → List BusyInterval
  | [] => [a]
  | b :: rest =>
    if b.startT ≤ a.endT then
      mergeFrom { startT := a.startT, endT := max a.endT b.endT } rest
    else
      a :: mergeFrom b rest

/-- Modelled from the spec's words for the refinement claim C7: merging of
"overlapping or adjacent" busy intervals, coalescing a neighbour whose
start does not exceed the current interval's end. -/
def mergeIntervals : List BusyInterval → List BusyInterval
  | [] => []
  | a :: rest => mergeFrom a rest

/-- The disjointness-and-order relation of claim C10: an earlier slot ends
no later than a later slot starts, and starts strictly before it. -/
def slotRel (s t : FreeSlot) : Prop :=
  s.endT ≤ t.startT ∧ s.startT < t.startT

instance : DecidableRel slotRel := fun s t =>
  inferInstanceAs (Decidable (s.endT ≤ t.startT ∧ s.startT < t.startT))

/-- The cursor value after folding `current_time = max(current_time,
event_end)` over a list, independent of any emission. -/
def cursorAfter (cur : Int) (l : List BusyInterval) : Int :=
  l.foldl (fun c b => max c b.endT) cur

example : findFreeSlots ⟨30, 0, 9, 17, true⟩ 32400
    [⟨36000, 39600⟩] =
    [⟨32400, 34200, 30⟩, ⟨39600, 41400, 30⟩] := by decide

example : findFreeSlots ⟨480, 0, 9, 17, true⟩ 32400 [] =
    [⟨32400, 61200, 480⟩] := by decide

theorem scanBusy_nil (dur cur : Int) : scanBusy dur cur [] = (cur, []) := rfl

theorem scanBusy_cons (dur cur : Int) (b : BusyInterval) (rest : List BusyInterval) :
    scanBusy dur cur (b :: rest) =
      ((scanBusy dur (max cur b.endT) rest).1,
        (if cur < b.startT ∧ 60 * dur ≤ b.startT - cur then [mkSlot cur b.startT dur]
          else []) ++ (scanBusy dur (max cur b.endT) rest).2) := rfl

theorem le_cursorAfter : ∀ (cur : Int) (l : List BusyInterval), cur ≤ cursorAfter cur l
  | _, [] => le_refl _
  | cur, b :: rest =>
    le_trans (le_max_left cur b.endT) (le_cursorAfter (max cur b.endT) rest)

theorem scanBusy_fst (dur : Int) :
    ∀ (cur : Int) (l : List BusyInterval), (scanBusy dur cur l).1 = cursorAfter cur l
  | _, [] => rfl
  | cur, b :: rest => scanBusy_fst dur (max cur b.endT) rest

theorem le_scanBusy_fst (dur cur : Int) (l : List BusyInterval) :
    cur ≤ (scanBusy dur cur l).1 := by
  rw [scanBusy_fst]
  exact le_cursorAfter cur l

/-- The main invariant of the cursor walk: over well-formed intervals whose
starts are bounded by `U`, every emitted slot starts at or after the
initial cursor, starts strictly before and ends at or before the final
cursor, stays below `U`, and the emitted slots are disjoint with strictly
increasing starts. -/
theorem scanBusy_spec (dur U : Int) :
    ∀ (l : List BusyInterval) (cur : Int),
      (∀ b ∈ l, b.startT ≤ b.endT) → (∀ b ∈ l, b.startT ≤ U) →
      (∀ s ∈ (scanBusy dur cur l).2,
          cur ≤ s.startT ∧ s.startT < (scanBusy dur cur l).1
            ∧ s.endT ≤ (scanBusy dur cur l).1 ∧ s.startT < U ∧ s.endT ≤ U)
        ∧ List.Pairwise slotRel (scanBusy dur cur l).2 := by
  intro l
  induction l with
  | nil =>
    intro cur _ _
    exact ⟨fun s hs => absurd hs (List.not_mem_nil s), List.Pairwise.nil⟩
  | cons b rest ih =>
    intro cur hw hub
    have hwb : b.startT ≤ b.endT := hw b (List.mem_cons_self b rest)
    have hubb : b.startT ≤ U := hub b (List.mem_cons_self b rest)
    have hw' : ∀ x ∈ rest, x.startT ≤ x.endT := fun x hx => hw x (List.mem_cons_of_mem b hx)
    have hub' : ∀ x ∈ rest, x.startT ≤ U := fun x hx => hub x (List.mem_cons_of_mem b hx)
    obtain ⟨ihs, ihp⟩ := ih (max cur b.endT) hw' hub'
    have hcur2 : max cur b.endT ≤ (scanBusy dur (max cur b.endT) rest).1 :=
      le_scanBusy_fst dur (max cur b.endT) rest
    rw [scanBusy_cons]
    by_cases hemit : cur < b.startT ∧ 60 * dur ≤ b.startT - cur
    · rw [if_pos hemit]
      have hslot_end : (mkSlot cur b.startT dur).endT ≤ b.startT := min_le_left _ _
      have hb_cur2 : b.startT ≤ max cur b.endT := le_trans hwb (le_max_right cur b.endT)
      constructor
      · intro s hs
        rcases List.mem_cons.1 hs with hs | hs
        · subst hs
          refine ⟨le_refl _, ?_, ?_, ?_, ?_⟩
          · exact lt_of_lt_of_le hemit.1 (le_trans hb_cur2 hcur2)
          · exact le_trans hslot_end (le_trans hb_cur2 hcur2)
          · exact lt_of_lt_of_le hemit.1 hubb
          · exact le_trans hslot_end hubb
        · obtain ⟨h1, h2, h3, h4, h5⟩ := ihs s hs
          exact ⟨le_trans (le_max_left cur b.endT) h1, h2, h3, h4, h5⟩
      · refine List.pairwise_cons.2 ⟨?_, ihp⟩
        intro t ht
        obtain ⟨h1, _, _, _, _⟩ := ihs t ht
        constructor
        · exact le_trans hslot_end (le_trans hb_cur2 h1)
        · exact lt_of_lt_of_le hemit.1 (le_trans hb_cur2 h1)
    · rw [if_neg hemit, List.nil_append]
      refine ⟨fun s hs => ?_, ihp⟩
      obtain ⟨h1, h2, h3, h4, h5⟩ := ihs s hs
      exact ⟨le_trans (le_max_left cur b.endT) h1, h2, h3, h4, h5⟩

/-- The invariant extended over the trailing-gap check of a day. -/
theorem scanDayCore_spec (dur cur dayEnd U : Int) (l : List BusyInterval)
    (hw : ∀ b ∈ l, b.startT ≤ b.endT) (hub : ∀ b ∈ l, b.startT ≤ U)
    (hde : dayEnd ≤ U) :
    (∀ s ∈ scanDayCore dur cur dayEnd l,
        cur ≤ s.startT ∧ s.startT < U ∧ s.endT ≤ U)
      ∧ List.Pairwise slotRel (scanDayCore dur cur dayEnd l) := by
  obtain ⟨hs, hp⟩ := scanBusy_spec dur U l cur hw hub
  have hcur : cur ≤ (scanBusy dur cur l).1 := le_scanBusy_fst dur cur l
  unfold scanDayCore trailingSlot
  by_cases ht : (scanBusy dur cur l).1 < dayEnd ∧ 60 * dur ≤ dayEnd - (scanBusy dur cur l).1
  · rw [if_pos ht]
    constructor
    · intro s hsm
      rcases List.mem_append.1 hsm with h | h
      · obtain ⟨h1, _, _, h4, h5⟩ := hs s h
        exact ⟨h1, h4, h5⟩
      · rw [List.mem_singleton] at h
        subst h
        refine ⟨hcur, lt_of_lt_of_le ht.1 hde, le_trans (min_le_left _ _) hde⟩
    · rw [List.pairwise_append]
      refine ⟨hp, List.pairwise_singleton _ _, ?_⟩
      intro s hsm t htm
      rw [List.mem_singleton] at htm
      subst htm
      obtain ⟨_, h2, h3, _, _⟩ := hs s hsm
      exact ⟨h3, h2⟩
  · rw [if_neg ht, List.append_nil]
    refine ⟨fun s h => ?_, hp⟩
    obtain ⟨h1, _, _, h4, h5⟩ := hs s h
    exact ⟨h1, h4, h5⟩

/-- A day attributed by `datetime.date()` pins the start instant inside the
day's `86400`-second block. -/
theorem dayOf_bounds {t d : Int} (h : dayOf t = d) :
    d * secPerDay ≤ t ∧ t < (d + 1) * secPerDay := by
  unfold dayOf at h
  unfold secPerDay at h ⊢
  rw [Int.fdiv_eq_ediv _ (by norm_num)] at h
  have h1 := Int.ediv_add_emod t 86400
  have h2 := Int.emod_nonneg t (show (86400 : Int) ≠ 0 by norm_num)
  have h3 := Int.emod_lt_of_pos t (show (0 : Int) < 86400 by norm_num)
  omega

theorem mem_sortByStart {b : BusyInterval} {l : List BusyInterval} :
    b ∈ sortByStart l ↔ b ∈ l :=
  (List.perm_insertionSort (fun a c => a.startT ≤ c.startT) l).mem_iff

theorem dayStartOf_le_clampedStart (cfg : SearchConfig) (now d : Int) :
    dayStartOf cfg d ≤ clampedStart cfg now d := by
  unfold clampedStart
  split <;> omega

/-- Per-day invariant: under well-formed busy intervals and work hours in
their `datetime.time` domain, every slot of a day starts no earlier than
the day's working-window opening and the whole slot lies before the next
day begins; the day's slots are disjoint with strictly increasing starts. -/
theorem daySlots_spec (cfg : SearchConfig) (now : Int) (busy : List BusyInterval) (d : Int)
    (hw : ∀ b ∈ busy, b.startT ≤ b.endT) (hwE : cfg.workEndHour ≤ 24) :
    (∀ s ∈ daySlots cfg now busy d,
        dayStartOf cfg d ≤ s.startT ∧ s.startT < (d + 1) * secPerDay
          ∧ s.endT ≤ (d + 1) * secPerDay)
      ∧ List.Pairwise slotRel (daySlots cfg now busy d) := by
  unfold daySlots
  by_cases hskip : skipDay cfg d
  · rw [if_pos hskip]
    exact ⟨fun s hs => absurd hs (List.not_mem_nil s), List.Pairwise.nil⟩
  · rw [if_neg hskip]
    have hw' : ∀ b ∈ sortByStart (dayBusy busy d), b.startT ≤ b.endT := by
      intro b hb
      rw [mem_sortByStart] at hb
      exact hw b (List.mem_filter.1 hb).1
    have hub' : ∀ b ∈ sortByStart (dayBusy busy d), b.startT ≤ (d + 1) * secPerDay := by
      intro b hb
      rw [mem_sortByStart] at hb
      have hd : dayOf b.startT = d := by
        have := (List.mem_filter.1 hb).2
        simpa using this
      exact le_of_lt (dayOf_bounds hd).2
    have hde : dayEndOf cfg d ≤ (d + 1) * secPerDay := by
      unfold dayEndOf secPerDay secPerHour
      have : cfg.workEndHour * 3600 ≤ 24 * 3600 := by
        exact mul_le_mul_of_nonneg_right hwE (by norm_num)
      omega
    obtain ⟨hs, hp⟩ := scanDayCore_spec cfg.durationMinutes (clampedStart cfg now d)
      (dayEndOf cfg d) ((d + 1) * secPerDay) (sortByStart (dayBusy busy d)) hw' hub' hde
    refine ⟨fun s hsm => ?_, hp⟩
    obtain ⟨h1, h2, h3⟩ := hs s hsm
    exact ⟨le_trans (dayStartOf_le_clampedStart cfg now d) h1, h2, h3⟩

/-- The scanned days are strictly increasing. -/
theorem scanRange_lt (cfg : SearchConfig) (now : Int) :
    List.Pairwise (fun a b : Int => a < b) (scanRange cfg now) := by
  unfold scanRange
  exact List.Pairwise.map (fun i : Nat => dayOf now + (i : Int))
    (fun a b h => show dayOf now + (a : Int) < dayOf now + (b : Int) by omega)
    (List.pairwise_lt_range _)

/-- C10 (amended): provided every busy interval is well-formed
(`start <= end`) and the work-hour parameters lie in the domain
`datetime.time` accepts, every two slots in the returned list are disjoint
as time intervals and appear in strictly increasing order of start time:
within a day the cursor is advanced to at least each emitted slot's end
(and to each busy interval's end) before the next candidate gap is
examined, and each day's slots end before the next day's clamped working
window begins. -/
theorem findFreeSlots_disjoint_increasing (cfg : SearchConfig) (now : Int)
    (busy : List BusyInterval)
    (hw : ∀ b ∈ busy, b.startT ≤ b.endT)
    (hwS : 0 ≤ cfg.workStartHour) (hwE : cfg.workEndHour ≤ 24) :
    List.Pairwise slotRel (findFreeSlots cfg now busy) := by
  unfold findFreeSlots
  apply List.Pairwise.sublist (List.take_sublist _ _)
  rw [List.pairwise_flatten]
  constructor
  · intro l hl
    rw [List.mem_map] at hl
    obtain ⟨d, _, rfl⟩ := hl
    exact (daySlots_spec cfg now busy d hw hwE).2
  · rw [List.pairwise_map]
    refine (scanRange_lt cfg now).imp ?_
    intro d1 d2 hlt x hx y hy
    obtain ⟨_, hx2, hx3⟩ := (daySlots_spec cfg now busy d1 hw hwE).1 x hx
    obtain ⟨hy1, _, _⟩ := (daySlots_spec cfg now busy d2 hw hwE).1 y hy
    have hwS' : 0 ≤ cfg.workStartHour * secPerHour :=
      mul_nonneg hwS (by norm_num [secPerHour])
    unfold dayStartOf at hy1
    unfold secPerDay at hx2 hx3 hy1
    unfold secPerHour at hy1 hwS'
    exact ⟨by omega, by omega⟩

/-- Witness for the amended C10 at a concrete busy list and configuration. -/
theorem findFreeSlots_disjoint_increasing_witness :
    (∀ b ∈ [BusyInterval.mk 36000 39600], b.startT ≤ b.endT)
      ∧ 0 ≤ (9 : Int) ∧ (17 : Int) ≤ 24
      ∧ List.Pairwise slotRel
          (findFreeSlots ⟨30, 0, 9, 17, true⟩ 32400 [⟨36000, 39600⟩]) :=
  ⟨by decide, by decide, by decide,
    findFreeSlots_disjoint_increasing ⟨30, 0, 9, 17, true⟩ 32400 [⟨36000, 39600⟩]
      (by decide) (by decide) (by decide)⟩

/-- Slot starts emitted by the cursor walk with a larger duration form a
sublist of those with a smaller duration: the cursor trajectory is
duration-independent, so the candidate gaps coincide and the emission test
only tightens. -/
theorem scanBusy_starts_sublist (d d2 : Int) (h : d ≤ d2) :
    ∀ (l : List BusyInterval) (cur : Int),
      ((scanBusy d2 cur l).2.map FreeSlot.startT).Sublist
        ((scanBusy d cur l).2.map FreeSlot.startT) := by
  intro l
  induction l with
  | nil => intro cur; exact List.Sublist.refl _
  | cons b rest ih =>
    intro cur
    rw [scanBusy_cons, scanBusy_cons]
    simp only [List.map_append]
    by_cases h2 : cur < b.startT ∧ 60 * d2 ≤ b.startT - cur
    · have h1 : cur < b.startT ∧ 60 * d ≤ b.startT - cur := ⟨h2.1, by omega⟩
      rw [if_pos h2, if_pos h1]
      simp only [List.map_cons, List.map_nil, mkSlot, List.cons_append, List.nil_append]
      exact List.Sublist.cons₂ cur (ih (max cur b.endT))
    · rw [if_neg h2]
      by_cases h1 : cur < b.startT ∧ 60 * d ≤ b.startT - cur
      · rw [if_pos h1]
        simp only [List.map_cons, List.map_nil, mkSlot, List.cons_append, List.nil_append]
        exact List.Sublist.cons cur (ih (max cur b.endT))
      · rw [if_neg h1]
        simpa using ih (max cur b.endT)

theorem trailingSlot_starts_sublist (d d2 c e : Int) (h : d ≤ d2) :
    ((trailingSlot d2 c e).map FreeSlot.startT).Sublist
      ((trailingSlot d c e).map FreeSlot.startT) := by
  unfold trailingSlot
  by_cases h2 : c < e ∧ 60 * d2 ≤ e - c
  · have h1 : c < e ∧ 60 * d ≤ e - c := ⟨h2.1, by omega⟩
    rw [if_pos h2, if_pos h1]
    simp [mkSlot]
  · rw [if_neg h2]
    simp

theorem scanDayCore_starts_sublist (d d2 cur e : Int) (l : List BusyInterval)
    (h : d ≤ d2) :
    ((scanDayCore d2 cur e l).map FreeSlot.startT).Sublist
      ((scanDayCore d cur e l).map FreeSlot.startT) := by
  unfold scanDayCore
  rw [List.map_append, List.map_append]
  have hfst : (scanBusy d2 cur l).1 = (scanBusy d cur l).1 := by
    rw [scanBusy_fst, scanBusy_fst]
  rw [hfst]
  exact List.Sublist.append (scanBusy_starts_sublist d d2 h l cur)
    (trailingSlot_starts_sublist d d2 _ e h)

/-- C6 (amended): per day and before the overall 10-entry truncation,
increasing `duration_needed` never adds slots — the slot starts emitted
with the larger duration form a sublist of those emitted with the smaller
duration (the slots themselves differ: each is truncated to its own
requested duration), and a day whose slot list is empty at the smaller
duration stays empty at the larger one.  The 10-capped overall result is
not monotone (see the counterexample). -/
theorem daySlots_duration_monotone (cfg : SearchConfig) (d2 now d : Int)
    (busy : List BusyInterval) (h : cfg.durationMinutes ≤ d2) :
    ((daySlots { cfg with durationMinutes := d2 } now busy d).map FreeSlot.startT).Sublist
        ((daySlots cfg now busy d).map FreeSlot.startT)
      ∧ (daySlots cfg now busy d = [] →
          daySlots { cfg with durationMinutes := d2 } now busy d = []) := by
  have hsub : ((daySlots { cfg with durationMinutes := d2 } now busy d).map
      FreeSlot.startT).Sublist ((daySlots cfg now busy d).map FreeSlot.startT) := by
    unfold daySlots
    by_cases hskip : skipDay cfg d = true
    · rw [if_pos hskip, if_pos (show skipDay { cfg with durationMinutes := d2 } d = true
        from hskip)]
    · rw [if_neg hskip, if_neg (show ¬ skipDay { cfg with durationMinutes := d2 } d = true
        from hskip)]
      exact scanDayCore_starts_sublist cfg.durationMinutes d2
        (clampedStart cfg now d) (dayEndOf cfg d) (sortByStart (dayBusy busy d)) h
  refine ⟨hsub, fun hnil => ?_⟩
  rw [hnil] at hsub
  simp only [List.map_nil] at hsub
  exact List.map_eq_nil_iff.mp (List.sublist_nil.mp hsub)

/-- Witness for the amended C6 at a concrete configuration. -/
theorem daySlots_duration_monotone_witness :
    (SearchConfig.mk 30 0 9 17 true).durationMinutes ≤ 60
      ∧ (((daySlots { SearchConfig.mk 30 0 9 17 true with durationMinutes := 60 }
            32400 [] 0).map FreeSlot.startT).Sublist
          ((daySlots ⟨30, 0, 9, 17, true⟩ 32400 [] 0).map FreeSlot.startT)
        ∧ (daySlots ⟨30, 0, 9, 17, true⟩ 32400 [] 0 = [] →
            daySlots { SearchConfig.mk 30 0 9 17 true with durationMinutes := 60 }
              32400 [] 0 = [])) :=
  ⟨by decide, daySlots_duration_monotone ⟨30, 0, 9, 17, true⟩ 60 32400 0 [] (by decide)⟩

/-- Counterexample to C6 as stated: with eleven days whose only gap is 30
minutes and a twelfth fully free day, the 30-minute search fills the
10-entry cap with the first ten days, while the 60-minute search returns
only the twelfth day's slot — a slot (even by start time) absent from the
smaller-duration result, so raising the duration added a slot. -/
theorem findFreeSlots_duration_not_monotone :
    findFreeSlots ⟨60, 11, 9, 17, false⟩ 32400
        [⟨34200, 61200⟩, ⟨120600, 147600⟩, ⟨207000, 234000⟩, ⟨293400, 320400⟩,
          ⟨379800, 406800⟩, ⟨466200, 493200⟩, ⟨552600, 579600⟩, ⟨639000, 666000⟩,
          ⟨725400, 752400⟩, ⟨811800, 838800⟩, ⟨898200, 925200⟩] =
        [⟨982800, 986400, 60⟩]
      ∧ FreeSlot.mk 982800 986400 60 ∉
          findFreeSlots ⟨30, 11, 9, 17, false⟩ 32400
            [⟨34200, 61200⟩, ⟨120600, 147600⟩, ⟨207000, 234000⟩, ⟨293400, 320400⟩,
              ⟨379800, 406800⟩, ⟨466200, 493200⟩, ⟨552600, 579600⟩, ⟨639000, 666000⟩,
              ⟨725400, 752400⟩, ⟨811800, 838800⟩, ⟨898200, 925200⟩]
      ∧ (982800 : Int) ∉
          (findFreeSlots ⟨30, 11, 9, 17, false⟩ 32400
            [⟨34200, 61200⟩, ⟨120600, 147600⟩, ⟨207000, 234000⟩, ⟨293400, 320400⟩,
              ⟨379800, 406800⟩, ⟨466200, 493200⟩, ⟨552600, 579600⟩, ⟨639000, 666000⟩,
              ⟨725400, 752400⟩, ⟨811800, 838800⟩, ⟨898200, 925200⟩]).map FreeSlot.startT := by
  refine ⟨by decide, by decide, by decide⟩

/-- The cursor walk is invariant under coalescing overlapping or adjacent
intervals: a neighbour swallowed by the merge starts no later than the end
of its predecessor, so it can never open a gap, and the cursor advance is
the maximum of the two ends either way. -/
theorem scanBusy_mergeFrom (dur : Int) :
    ∀ (l : List BusyInterval) (a : BusyInterval) (cur : Int),
      scanBusy dur cur (mergeFrom a l) = scanBusy dur cur (a :: l) := by
  intro l
  induction l with
  | nil => intro a cur; rfl
  | cons b rest ih =>
    intro a cur
    by_cases hle : b.startT ≤ a.endT
    · rw [mergeFrom, if_pos hle, ih]
      rw [scanBusy_cons, scanBusy_cons, scanBusy_cons]
      have hnb : ¬ (max cur a.endT < b.startT ∧ 60 * dur ≤ b.startT - max cur a.endT) := by
        intro hc
        exact absurd hc.1 (not_lt.mpr (le_trans hle (le_max_right cur a.endT)))
      rw [if_neg hnb, List.nil_append]
      have hmax : max cur (max a.endT b.endT) = max (max cur a.endT) b.endT :=
        (max_assoc cur a.endT b.endT).symm
      simp only [hmax]
    · rw [mergeFrom, if_neg hle, scanBusy_cons, scanBusy_cons, ih]

theorem scanBusy_mergeIntervals (dur : Int) (l : List BusyInterval) (cur : Int) :
    scanBusy dur cur (mergeIntervals l) = scanBusy dur cur l := by
  cases l with
  | nil => rfl
  | cons a rest => exact scanBusy_mergeFrom dur rest a cur

/-- C7 (amended): a single day's scan (cursor walk plus trailing check) is
unchanged by first merging overlapping or adjacent busy intervals of that
day: the cursor only ever advances with `max`, so a nested or overlapping
interval contributes no extra advance and no duplicate slot.  Across days
the equivalence fails, because a merged interval spanning midnight is
re-attributed to its start day (see the counterexample). -/
theorem scanDayCore_mergeIntervals (dur cur dayEnd : Int) (l : List BusyInterval) :
    scanDayCore dur cur dayEnd (mergeIntervals l) = scanDayCore dur cur dayEnd l := by
  unfold scanDayCore
  rw [scanBusy_mergeIntervals]

/-- Counterexample to C7 as stated: two overlapping busy intervals that
straddle midnight.  Raw, the second interval is attributed to Tuesday and
pushes Tuesday's first slot to 10:00; merged, the single interval belongs
to Monday and Tuesday scans as a completely free day starting 09:00.  The
two runs of the scanner return different slot lists. -/
theorem findFreeSlots_merge_dependent :
    mergeIntervals [⟨82800, 90000⟩, ⟨88200, 122400⟩] = [⟨82800, 122400⟩]
      ∧ findFreeSlots ⟨30, 1, 9, 17, false⟩ 32400 [⟨82800, 90000⟩, ⟨88200, 122400⟩] =
          [⟨32400, 34200, 30⟩, ⟨122400, 124200, 30⟩]
      ∧ findFreeSlots ⟨30, 1, 9, 17, false⟩ 32400 [⟨82800, 122400⟩] =
          [⟨32400, 34200, 30⟩, ⟨118800, 120600, 30⟩]
      ∧ findFreeSlots ⟨30, 1, 9, 17, false⟩ 32400 [⟨82800, 90000⟩, ⟨88200, 122400⟩] ≠
          findFreeSlots ⟨30, 1, 9, 17, false⟩ 32400
            (mergeIntervals [⟨82800, 90000⟩, ⟨88200, 122400⟩]) := by
  exact ⟨by decide, by decide, by decide, by decide⟩

/-- Counterexample to C10 as stated: a busy interval whose end precedes its
start (the code never validates intervals) makes the cursor fail to pass an
emitted slot's end, so the gap-before-event slot and the trailing slot are
the very same interval — the returned list repeats a slot, which is neither
disjoint nor strictly increasing. -/
theorem findFreeSlots_not_always_disjoint :
    findFreeSlots ⟨10, 0, 9, 17, true⟩ 32400 [⟨33300, 33360⟩, ⟨36000, 33000⟩] =
      [⟨32400, 33000, 10⟩, ⟨33360, 33960, 10⟩, ⟨33360, 33960, 10⟩]
      ∧ ¬ List.Pairwise slotRel
          (findFreeSlots ⟨10, 0, 9, 17, true⟩ 32400 [⟨33300, 33360⟩, ⟨36000, 33000⟩]) := by
  constructor
  · decide
  · decide

/-- C1 (confirmed): on an eligible day — not skipped by the weekend filter,
with a clamped working window at least `duration_needed` long — and an
empty busy list, the scan emits exactly one slot, starting at the clamped
`day_start` and truncated to `duration_needed` minutes. -/
theorem daySlots_empty_busy (cfg : SearchConfig) (now d : Int)
    (hskip : skipDay cfg d = false) (hdur : 1 ≤ cfg.durationMinutes)
    (hwin : 60 * cfg.durationMinutes ≤ dayEndOf cfg d - clampedStart cfg now d) :
    daySlots cfg now [] d =
      [⟨clampedStart cfg now d,
        clampedStart cfg now d + 60 * cfg.durationMinutes, cfg.durationMinutes⟩] := by
  unfold daySlots
  rw [if_neg (by rw [hskip]; exact Bool.false_ne_true)]
  simp only [dayBusy, List.filter_nil, sortByStart, List.insertionSort, scanDayCore,
    scanBusy, List.nil_append]
  unfold trailingSlot
  rw [if_pos ⟨by omega, by omega⟩]
  unfold mkSlot
  rw [min_eq_right (by omega : clampedStart cfg now d + 60 * cfg.durationMinutes ≤
    dayEndOf cfg d)]
  rw [add_sub_cancel_left, Int.mul_tdiv_cancel_left _ (by norm_num)]

/-- Witness for C1 at a concrete eligible day. -/
theorem daySlots_empty_busy_witness :
    skipDay ⟨30, 0, 9, 17, true⟩ 0 = false ∧ (1 : Int) ≤ 30
      ∧ 60 * (30 : Int) ≤ dayEndOf ⟨30, 0, 9, 17, true⟩ 0
          - clampedStart ⟨30, 0, 9, 17, true⟩ 32400 0
      ∧ daySlots ⟨30, 0, 9, 17, true⟩ 32400 [] 0 = [⟨32400, 34200, 30⟩] := by
  refine ⟨by decide, by decide, by decide, ?_⟩
  rw [daySlots_empty_busy ⟨30, 0, 9, 17, true⟩ 32400 0 (by decide) (by decide) (by decide)]
  decide

/-- C2 (confirmed): at a gap found before a busy interval (its start lies
strictly after the cursor), a slot is emitted iff the gap is at least
`duration_needed` minutes, and the emitted slot is
`[current, current + duration_needed)` — the truncation
`min(b_start, current + duration)` collapses to exactly the requested
duration, so a large gap yields one slot of the requested length, not the
whole gap; when the gap is too short nothing is emitted for it. -/
theorem scanBusy_gap_emission (dur cur : Int) (b : BusyInterval)
    (rest : List BusyInterval) (hb : cur < b.startT) :
    (60 * dur ≤ b.startT - cur →
        (scanBusy dur cur (b :: rest)).2 =
          ⟨cur, cur + 60 * dur, dur⟩ :: (scanBusy dur (max cur b.endT) rest).2)
      ∧ (b.startT - cur < 60 * dur →
        (scanBusy dur cur (b :: rest)).2 = (scanBusy dur (max cur b.endT) rest).2) := by
  have h2 : (scanBusy dur cur (b :: rest)).2 =
      (if cur < b.startT ∧ 60 * dur ≤ b.startT - cur then [mkSlot cur b.startT dur]
        else []) ++ (scanBusy dur (max cur b.endT) rest).2 := by
    rw [scanBusy_cons]
  constructor
  · intro hg
    rw [h2, if_pos ⟨hb, hg⟩]
    unfold mkSlot
    rw [min_eq_right (by omega : cur + 60 * dur ≤ b.startT)]
    rw [add_sub_cancel_left, Int.mul_tdiv_cancel_left _ (by norm_num),
      List.singleton_append]
  · intro hg
    rw [h2, if_neg (fun hc => absurd hc.2 (by omega)), List.nil_append]

/-- Witness for C2 at a concrete cursor and busy interval. -/
theorem scanBusy_gap_emission_witness :
    (32400 : Int) < BusyInterval.startT ⟨36000, 39600⟩
      ∧ ((60 * 30 ≤ BusyInterval.startT ⟨36000, 39600⟩ - 32400 →
            (scanBusy 30 32400 [⟨36000, 39600⟩]).2 =
              ⟨32400, 32400 + 60 * 30, 30⟩ :: (scanBusy 30 (max 32400 39600) []).2)
          ∧ (BusyInterval.startT ⟨36000, 39600⟩ - 32400 < 60 * 30 →
            (scanBusy 30 32400 [⟨36000, 39600⟩]).2 = (scanBusy 30 (max 32400 39600) []).2)) :=
  ⟨by decide, scanBusy_gap_emission 30 32400 ⟨36000, 39600⟩ [] (by decide)⟩

/-- C3 (amended): an unparseable start instant in the busy list does not
make the scan skip just that interval — the exception aborts the whole
call as soon as any scanned day survives the weekend filter, and the
catch-all handler returns an error payload in place of any slots. -/
theorem findFreeTime_malformed_aborts (cfg : SearchConfig) (now : Int)
    (raw : List RawInterval) (hactive : (activeDays cfg now).isEmpty = false)
    (hbad : ∃ e ∈ raw, e.startT = none) :
    findFreeTime cfg now raw = ScanResult.error := by
  unfold findFreeTime
  rw [if_pos]
  unfold rawAborts
  obtain ⟨e, he, hnone⟩ := hbad
  have h1 : raw.any (fun e => e.startT.isNone) = true :=
    List.any_eq_true.mpr ⟨e, he, by rw [hnone]; rfl⟩
  rw [h1, hactive]
  rfl

/-- Witness for the amended C3: one malformed event among well-formed ones. -/
theorem findFreeTime_malformed_aborts_witness :
    (activeDays ⟨30, 0, 9, 17, true⟩ 32400).isEmpty = false
      ∧ (∃ e ∈ [RawInterval.mk none (some 36000), RawInterval.mk (some 36000) (some 39600)],
          e.startT = none)
      ∧ findFreeTime ⟨30, 0, 9, 17, true⟩ 32400
          [⟨none, some 36000⟩, ⟨some 36000, some 39600⟩] = ScanResult.error :=
  ⟨by decide, by decide,
    findFreeTime_malformed_aborts ⟨30, 0, 9, 17, true⟩ 32400
      [⟨none, some 36000⟩, ⟨some 36000, some 39600⟩] (by decide) (by decide)⟩

/-- Counterexample to C3 as stated: with one malformed and one well-formed
interval the call returns the error payload, not the scan over the
well-formed remainder (which would contain two slots). -/
theorem findFreeTime_not_resilient :
    findFreeTime ⟨30, 0, 9, 17, true⟩ 32400
        [⟨none, some 36000⟩, ⟨some 36000, some 39600⟩] = ScanResult.error
      ∧ findFreeSlots ⟨30, 0, 9, 17, true⟩ 32400
          (parseBusy [⟨none, some 36000⟩, ⟨some 36000, some 39600⟩]) =
          [⟨32400, 34200, 30⟩, ⟨39600, 41400, 30⟩]
      ∧ findFreeTime ⟨30, 0, 9, 17, true⟩ 32400
          [⟨none, some 36000⟩, ⟨some 36000, some 39600⟩] ≠
        ScanResult.ok (findFreeSlots ⟨30, 0, 9, 17, true⟩ 32400
          (parseBusy [⟨none, some 36000⟩, ⟨some 36000, some 39600⟩])) := by
  exact ⟨by decide, by decide, by decide⟩

/-- C4 (amended): the code performs no configuration validation at all —
for every configuration, including a non-positive `duration_minutes` or
inverted work hours, the call is not rejected: whenever every fetched
instant parses, the scan runs and its slots are returned. -/
theorem findFreeTime_no_config_check (cfg : SearchConfig) (now : Int)
    (raw : List RawInterval)
    (hbad : cfg.durationMinutes ≤ 0 ∨ cfg.workEndHour ≤ cfg.workStartHour)
    (hparse : ∀ e ∈ raw, e.startT ≠ none ∧ e.endT ≠ none) :
    findFreeTime cfg now raw = ScanResult.ok (findFreeSlots cfg now (parseBusy raw)) := by
  unfold findFreeTime
  rw [if_neg]
  intro habort
  unfold rawAborts at habort
  rw [Bool.or_eq_true] at habort
  rcases habort with h | h
  · rw [Bool.and_eq_true] at h
    obtain ⟨e, he, hn⟩ := List.any_eq_true.mp h.2
    exact absurd (Option.isNone_iff_eq_none.mp hn) (hparse e he).1
  · obtain ⟨e, he, hn⟩ := List.any_eq_true.mp h
    rcases hes : e.startT with _ | s
    · rw [hes] at hn
      simp at hn
    · rw [hes] at hn
      simp only [Bool.and_eq_true] at hn
      exact absurd (Option.isNone_iff_eq_none.mp hn.2) (hparse e he).2

/-- Witness for the amended C4: a zero duration is accepted and scanned. -/
theorem findFreeTime_no_config_check_witness :
    ((SearchConfig.mk 0 0 9 17 false).durationMinutes ≤ 0
        ∨ (SearchConfig.mk 0 0 9 17 false).workEndHour ≤
            (SearchConfig.mk 0 0 9 17 false).workStartHour)
      ∧ (∀ e ∈ ([] : List RawInterval), e.startT ≠ none ∧ e.endT ≠ none)
      ∧ findFreeTime ⟨0, 0, 9, 17, false⟩ 32400 [] =
          ScanResult.ok (findFreeSlots ⟨0, 0, 9, 17, false⟩ 32400 (parseBusy [])) :=
  ⟨by decide, by decide,
    findFreeTime_no_config_check ⟨0, 0, 9, 17, false⟩ 32400 [] (by decide) (by decide)⟩

/-- Counterexample to C4 as stated: a zero (non-positive) duration is not
rejected — the scan runs and even emits a degenerate zero-length slot —
and inverted work hours are likewise accepted, returning a normal (empty)
slot list instead of a rejection. -/
theorem findFreeTime_accepts_bad_config :
    findFreeTime ⟨0, 0, 9, 17, false⟩ 32400 [] = ScanResult.ok [⟨32400, 32400, 0⟩]
      ∧ findFreeTime ⟨30, 0, 17, 9, false⟩ 32400 [] = ScanResult.ok [] := by
  exact ⟨by decide, by decide⟩

/-- C5 (amended): when the clamped `day_start` already reaches `day_end`,
the day emits no trailing slot — its output reduces to the gap-before-event
slots of the cursor walk, which can still be nonempty for busy intervals
attributed to the day that start after the clamped start (see the
counterexample) — and if additionally no busy interval is attributed to
the day, nothing at all is emitted. -/
theorem daySlots_start_past_end (cfg : SearchConfig) (now : Int)
    (busy : List BusyInterval) (d : Int)
    (h : dayEndOf cfg d ≤ clampedStart cfg now d) :
    daySlots cfg now busy d =
        (if skipDay cfg d then []
          else (scanBusy cfg.durationMinutes (clampedStart cfg now d)
            (sortByStart (dayBusy busy d))).2)
      ∧ (dayBusy busy d = [] → daySlots cfg now busy d = []) := by
  have hkey : ∀ l : List BusyInterval,
      scanDayCore cfg.durationMinutes (clampedStart cfg now d) (dayEndOf cfg d) l =
        (scanBusy cfg.durationMinutes (clampedStart cfg now d) l).2 := by
    intro l
    unfold scanDayCore trailingSlot
    have hc : clampedStart cfg now d ≤
        (scanBusy cfg.durationMinutes (clampedStart cfg now d) l).1 :=
      le_scanBusy_fst _ _ _
    rw [if_neg (fun hcon => absurd hcon.1 (not_lt.mpr (le_trans h hc)))]
    exact List.append_nil _
  constructor
  · unfold daySlots
    by_cases hskip : skipDay cfg d = true
    · rw [if_pos hskip, if_pos hskip]
    · rw [if_neg hskip, if_neg hskip, hkey]
  · intro hnil
    unfold daySlots
    by_cases hskip : skipDay cfg d = true
    · rw [if_pos hskip]
    · rw [if_neg hskip, hkey, hnil]
      rfl

/-- Witness for the amended C5: an evening `now` past `work_hours_end`. -/
theorem daySlots_start_past_end_witness :
    dayEndOf ⟨30, 0, 9, 17, true⟩ 0 ≤ clampedStart ⟨30, 0, 9, 17, true⟩ 64800 0
      ∧ (daySlots ⟨30, 0, 9, 17, true⟩ 64800 [⟨68400, 72000⟩] 0 =
          (if skipDay ⟨30, 0, 9, 17, true⟩ 0 then []
            else (scanBusy 30 (clampedStart ⟨30, 0, 9, 17, true⟩ 64800 0)
              (sortByStart (dayBusy [⟨68400, 72000⟩] 0))).2)
        ∧ (dayBusy [⟨68400, 72000⟩] 0 = [] →
            daySlots ⟨30, 0, 9, 17, true⟩ 64800 [⟨68400, 72000⟩] 0 = [])) :=
  ⟨by decide,
    daySlots_start_past_end ⟨30, 0, 9, 17, true⟩ 64800 [⟨68400, 72000⟩] 0 (by decide)⟩

/-- Counterexample to C5 as stated: at 18:00, past the 9-17 working window,
the clamped `day_start` (18:00) exceeds `day_end` (17:00), yet a busy
interval starting at 19:00 still opens a gap before it and a slot
18:00-18:30 is emitted for that day. -/
theorem daySlots_start_past_end_still_emits :
    dayEndOf ⟨30, 0, 9, 17, true⟩ 0 ≤ clampedStart ⟨30, 0, 9, 17, true⟩ 64800 0
      ∧ findFreeSlots ⟨30, 0, 9, 17, true⟩ 64800 [⟨68400, 72000⟩] =
          [⟨64800, 66600, 30⟩] := by
  exact ⟨by decide, by decide⟩

/-- C8 (confirmed): the returned slot list never has more than 10 entries —
the per-day slots are concatenated in day order and the overall result is
truncated to the first 10. -/
theorem findFreeSlots_length_le (cfg : SearchConfig) (now : Int)
    (busy : List BusyInterval) : (findFreeSlots cfg now busy).length ≤ 10 := by
  unfold findFreeSlots
  rw [List.length_take]
  exact min_le_left _ _

/-- C9 (confirmed): with `exclude_weekends` set, a Saturday or Sunday is
skipped entirely — zero slots are emitted for that day no matter what the
busy list holds. -/
theorem daySlots_weekend_skipped (cfg : SearchConfig) (now : Int)
    (busy : List BusyInterval) (d : Int) (hx : cfg.excludeWeekends = true)
    (hwd : 5 ≤ weekdayOf d) : daySlots cfg now busy d = [] := by
  unfold daySlots
  rw [if_pos]
  unfold skipDay
  rw [hx, Bool.true_and]
  exact decide_eq_true hwd

/-- Witness for C9 on a Saturday (day 5 with the Monday epoch), with a
fully free day. -/
theorem daySlots_weekend_skipped_witness :
    (SearchConfig.mk 30 6 9 17 true).excludeWeekends = true
      ∧ (5 : Int) ≤ weekdayOf 5
      ∧ daySlots ⟨30, 6, 9, 17, true⟩ 32400 [] 5 = [] :=
  ⟨by decide, by decide,
    daySlots_weekend_skipped ⟨30, 6, 9, 17, true⟩ 32400 [] 5 (by decide) (by decide)⟩

end AgenDo
